import Mathlib

/-!
Verification development for the ModUtils binary-patching substrate.

This file gives a shallow embedding of the three core components and proves
properties stated about them:

- the signature compiler and the wildcard pattern scanner from Patterns.cpp
  and Patterns.h (TransformPattern, basic_pattern_impl, the error policies),
- the scoped protection guard from ScopedUnprotect.hpp (UnprotectRange and
  the ReprotectRegion records),
- the proximity-constrained trampoline allocator from Trampoline.h.

Machine integers are modelled as Nat or Int with explicit wrap-around where
the width matters.  Memory is a total function from addresses to byte
values.  The OS page primitives (VirtualQuery, VirtualProtect, VirtualAlloc)
are modelled over an explicit list of regions; per-region Boolean fields
record whether the corresponding OS call succeeds, so failure paths of the
source are representable.
-/

namespace ModUtils

/-! ## Pattern compiler: TransformPattern (Patterns.cpp, lines 138-180) -/

/-- Accepted hex characters, from the condition
    (ch >= 0x30 and ch <= 0x39) or (A to F) or (a to f) in TransformPattern. -/
def isHexChar (ch : Char) : Bool :=
  decide (('0' ≤ ch ∧ ch ≤ '9') ∨ ('A' ≤ ch ∧ ch ≤ 'F') ∨ ('a' ≤ ch ∧ ch ≤ 'f'))

/-- The tol lambda of TransformPattern: value of a hex character. -/
def tol (ch : Char) : Nat :=
  if 'A' ≤ ch ∧ ch ≤ 'F' then ch.toNat - 'A'.toNat + 10
  else if 'a' ≤ ch ∧ ch ≤ 'f' then ch.toNat - 'a'.toNat + 10
  else ch.toNat - '0'.toNat

/-- State of the TransformPattern loop: the pending half byte tempDigit, the
    pairing flag tempFlag, and the output byte and mask strings. -/
structure TPState where
  tempDigit : Nat
  tempFlag : Bool
  data : List Nat
  mask : List Nat
deriving DecidableEq

/-- One iteration of the character loop of TransformPattern. -/
def tpStep (st : TPState) (ch : Char) : TPState :=
  if ch = ' ' then st
  else if ch = '?' then
    { st with data := st.data ++ [0], mask := st.mask ++ [0] }
  else if isHexChar ch then
    let thisDigit := tol ch
    if st.tempFlag = false then
      { st with tempDigit := thisDigit <<< 4, tempFlag := true }
    else
      let d := st.tempDigit ||| thisDigit
      { st with tempDigit := d, tempFlag := false,
                data := st.data ++ [d], mask := st.mask ++ [0xFF] }
  else st

/-- TransformPattern: fold the character loop over the signature string,
    starting from tempDigit = 0, tempFlag = false and empty outputs. -/
def transformPattern (pattern : List Char) : TPState :=
  pattern.foldl tpStep ⟨0, false, [], []⟩

/-- Pointwise relation used to state case-insensitivity of the compiler:
    equal characters, or two hex digits of equal value. -/
def hexEquiv (a b : Char) : Prop :=
  a = b ∨ (isHexChar a = true ∧ isHexChar b = true ∧ tol a = tol b)

/-! ## Pattern fingerprint: fnv_1 (Patterns.cpp, lines 27-46) -/

def fnv_prime : Nat := 1099511628211

def fnv_offset_basis : Nat := 14695981039346656037

/-- The basic_fnv_1 functor: 64 bit multiply (reduced mod 2 to the 64) then
    xor with the character value. -/
def fnv1 (text : List Char) : Nat :=
  text.foldl (fun hash ch => ((hash * fnv_prime) % 2 ^ 64) ^^^ ch.toNat) fnv_offset_basis

/-! ## Scanner state (basic_pattern_impl, Patterns.h lines 113-169) -/

/-- Byte memory: a total map from addresses to byte values.  Reads in the
    source go through a uint8 pointer, so well-formed memories map every
    address below 256; theorems that need this carry it as a hypothesis. -/
abbrev Mem := Int → Nat

/-- The fields of basic_pattern_impl: compiled bytes and mask, the pattern
    hash, the accumulated matches, the segments to scan and the matched
    flag. -/
structure PatternState where
  bytes : List Nat
  mask : List Nat
  hash : Nat
  m_matches : List Int
  scanSegments : List (Int × Int)
  matched : Bool
deriving DecidableEq

/-- State threaded through a scan: the per-pattern match list plus the
    process-wide hint multimap (getHints), modelled as an append-only list
    of hash and address pairs; equal_range is a filter by hash. -/
structure ScanState where
  m_matches : List Int
  hints : List (Nat × Int)
deriving DecidableEq

/-! ## EnsureMatches (Patterns.cpp, lines 221-280) -/

/-- The backward comparison loop of EnsureMatches:
    while j >= 0 and pattern j equals (ptr j andmask mask j) decrement j.
    Returns minus one on a full window match, else the largest mismatching
    index.  The argument is one past the index checked first. -/
def scanCmp (mem : Mem) (bytes mask : List Nat) (i : Int) : Nat → Int
  | 0 => -1
  | j + 1 =>
    if bytes.getD j 0 = mem (i + (j : Int)) &&& mask.getD j 0 then
      scanCmp mem bytes mask i j
    else (j : Int)

/-- find_last_not_of on the mask with argument 0xFF: the largest index whose
    mask byte differs from 0xFF, if any. -/
def findLastNotFF (mask : List Nat) : Option Nat :=
  (List.range mask.length).foldl
    (fun acc i => if mask.getD i 0 ≠ 0xFF then some i else acc) none

/-- Default entry of the Last table: the last wildcard index, or minus one
    when the mask has no wildcard (npos case). -/
def lastWildDefault (mask : List Nat) : Int :=
  match findLastNotFF mask with
  | none => -1
  | some k => (k : Int)

/-- The 256 entry Last table of EnsureMatches, built by the loop
    for i in 0 to maskSize - 1: if Last (pattern i) < i then update. -/
def buildLast (bytes mask : List Nat) : Nat → Int :=
  (List.range mask.length).foldl
    (fun f i =>
      if f (bytes.getD i 0) < (i : Int) then
        Function.update f (bytes.getD i 0) (i : Int)
      else f)
    (fun _ => lastWildDefault mask)

/-- The per-segment loop of EnsureMatches: i runs from segment.first while
    i <= end with end = segment.second - maskSize.  On a full match the
    address is recorded, a hint is emplaced, and the matchSuccess test
    (size equal to maxCount) breaks out of this segment only.  Otherwise i
    advances by max 1 (j - Last (byte at i + j)). -/
def scanSeg (mem : Mem) (bytes mask : List Nat) (last : Nat → Int) (hash maxCount : Nat)
    (segEnd : Int) (i : Int) (st : ScanState) : ScanState :=
  if hle : i ≤ segEnd then
    let j := scanCmp mem bytes mask i mask.length
    if j < 0 then
      let st2 : ScanState := ⟨st.m_matches ++ [i], st.hints ++ [(hash, i)]⟩
      if st2.m_matches.length = maxCount then st2
      else scanSeg mem bytes mask last hash maxCount segEnd (i + 1) st2
    else
      scanSeg mem bytes mask last hash maxCount segEnd
        (i + max 1 (j - last (mem (i + j)))) st
  else st
termination_by (segEnd + 1 - i).toNat
decreasing_by
  all_goals omega

/-- EnsureMatches: early return when m_matched is set; otherwise build the
    Last table and run the segment loop over every scan segment, then set
    m_matched.  Returns the updated pattern state and hint map. -/
def EnsureMatches (mem : Mem) (p : PatternState) (hints : List (Nat × Int))
    (maxCount : Nat) : PatternState × List (Nat × Int) :=
  if p.matched then (p, hints)
  else
    let last := buildLast p.bytes p.mask
    let st := p.scanSegments.foldl
      (fun st seg =>
        scanSeg mem p.bytes p.mask last p.hash maxCount
          (seg.2 - (p.mask.length : Int)) seg.1 st)
      ⟨p.m_matches, hints⟩
    ({ p with m_matches := st.m_matches, matched := true }, st.hints)

/-! ## ConsiderHint and Initialize (Patterns.cpp, lines 185-219 and 282-302)

The hint machinery compiles only with PATTERNS_USE_HINTS defined and
PATTERNS_CAN_SERIALIZE_HINTS undefined: the verification loop of
ConsiderHint and the range check of Initialize sit behind
PATTERNS_CAN_SERIALIZE_HINTS, and enabling that flag does not build against
this Patterns.h because Initialize line 198 reads a member m_rangeStart that
basic_pattern_impl does not declare.  The embedding therefore follows the
configuration that compiles: ConsiderHint appends the hinted address without
re-checking the bytes. -/

/-- ConsiderHint as compiled (PATTERNS_CAN_SERIALIZE_HINTS off): append the
    hinted address to m_matches unconditionally. -/
def ConsiderHint (p : PatternState) (offset : Int) : PatternState :=
  { p with m_matches := p.m_matches ++ [offset] }

/-- Initialize of basic_pattern_impl: hash the pattern, compile it with
    TransformPattern, then consult the hint multimap; when the equal_range
    for the hash is non-empty every hint is fed to ConsiderHint and, if the
    match list came out non-empty, m_matched is set so no scan will run. -/
def patternInit (pattern : List Char) (segments : List (Int × Int))
    (hints : List (Nat × Int)) : PatternState × List (Nat × Int) :=
  let hash := fnv1 pattern
  let tp := transformPattern pattern
  let p0 : PatternState := ⟨tp.data, tp.mask, hash, [], segments, false⟩
  let range := hints.filter (fun h => h.1 = hash)
  if range ≠ [] then
    let p1 := range.foldl (fun p h => ConsiderHint p h.2) p0
    if p1.m_matches ≠ [] then ({ p1 with matched := true }, hints)
    else (p1, hints)
  else (p0, hints)

/-! ## Error policies and the count and get accessors (Patterns.h) -/

/-- Observable outcome of an err_policy count call: success, a fatal
    assertion (assert_err_policy), or a catchable txn_exception thrown
    without terminating the process (exception_err_policy). -/
inductive CountOutcome where
  | ok
  | assertionFailure
  | thrownException
deriving DecidableEq

/-- assert_err_policy count: assert(countMatches). -/
def assertErrPolicyCount (countMatches : Bool) : CountOutcome :=
  if countMatches then CountOutcome.ok else CountOutcome.assertionFailure

/-- exception_err_policy count: throw txn_exception when the count is
    wrong. -/
def exceptionErrPolicyCount (countMatches : Bool) : CountOutcome :=
  if countMatches then CountOutcome.ok else CountOutcome.thrownException

def UINT32_MAX : Nat := 4294967295

/-- basic_pattern count: EnsureMatches(expected), then the policy checks
    m_matches.size() == expected; the pattern object itself is returned
    unchanged. -/
def patternCount (mem : Mem) (policy : Bool → CountOutcome) (p : PatternState)
    (hints : List (Nat × Int)) (expected : Nat) :
    CountOutcome × PatternState × List (Nat × Int) :=
  let r := EnsureMatches mem p hints expected
  (policy (decide (r.1.m_matches.length = expected)), r.1, r.2)

/-- The _get_internal accessor, return m_matches index: vector indexing is
    modelled as a lookup that yields none when the index is at or past the end
    (the checked semantics of the debug standard library; an out of range
    access never produces a value). -/
def getInternal (p : PatternState) (index : Nat) : Option Int :=
  p.m_matches.get? index

/-- basic_pattern get: EnsureMatches(UINT32_MAX) then _get_internal. -/
def patternGet (mem : Mem) (p : PatternState) (hints : List (Nat × Int))
    (index : Nat) : Option Int × PatternState × List (Nat × Int) :=
  let r := EnsureMatches mem p hints UINT32_MAX
  (getInternal r.1 index, r.1, r.2)

/-! ## Reference scanner (specification section 8)

naiveScan is a second, specification-level definition written from the
wording of the spec: a plain byte-for-byte search that tries every window
position in order.  It is compared with EnsureMatches for the
reference-equivalence claim. -/

/-- Integer positions lo, lo + 1, ..., hi (empty when hi < lo). -/
def intRange (lo hi : Int) : List Int :=
  (List.range (hi + 1 - lo).toNat).map fun (k : Nat) => lo + (k : Int)

/-- Full window comparison at position i: every pattern byte equals the
    masked memory byte. -/
def matchAt (mem : Mem) (bytes mask : List Nat) (i : Int) : Bool :=
  (List.range mask.length).all fun j =>
    decide (bytes.getD j 0 = mem (i + (j : Int)) &&& mask.getD j 0)

/-- Naive search over one segment: filter all window positions. -/
def naiveSeg (mem : Mem) (bytes mask : List Nat) (seg : Int × Int) : List Int :=
  (intRange seg.1 (seg.2 - (mask.length : Int))).filter (matchAt mem bytes mask)

/-- Naive search over a segment list, in segment order. -/
def naiveScan (mem : Mem) (bytes mask : List Nat) (segs : List (Int × Int)) : List Int :=
  (segs.map (naiveSeg mem bytes mask)).flatten

/-! ## ScopedUnprotect (ScopedUnprotect.hpp)

The address space is a list of VirtualQuery regions in address order, each
carrying its base, size, commit state, backing type and protection, plus
two Booleans telling whether VirtualQuery and VirtualProtect succeed on it.
UnprotectRange walks the regions of the target range in order, since each
query returns the region holding the current address and the walk then
advances by RegionSize. -/

structure MemRegion where
  base : Nat
  size : Nat
  state : Nat
  mtype : Nat
  protect : Nat
  queryOk : Bool
  protectOk : Bool
deriving DecidableEq

def MEM_COMMIT : Nat := 0x1000

def MEM_IMAGE : Nat := 0x1000000

def PAGE_READWRITE : Nat := 0x04

def PAGE_WRITECOPY : Nat := 0x08

def PAGE_EXECUTE : Nat := 0x10

def PAGE_EXECUTE_READ : Nat := 0x20

def PAGE_EXECUTE_READWRITE : Nat := 0x40

def PAGE_EXECUTE_WRITECOPY : Nat := 0x80

/-- The writable protection classes filtered out by UnprotectRange. -/
def writableProtectMask : Nat :=
  PAGE_EXECUTE_READWRITE ||| PAGE_EXECUTE_WRITECOPY ||| PAGE_READWRITE ||| PAGE_WRITECOPY

/-- The executable protection classes that select PAGE_EXECUTE_READWRITE as
    the unprotected analogue. -/
def executableProtectMask : Nat := PAGE_EXECUTE ||| PAGE_EXECUTE_READ

/-- The condition of UnprotectRange line 95: committed, image backed, and
    not already one of the writable classes. -/
def needsUnprotect (r : MemRegion) : Bool :=
  decide (r.state = MEM_COMMIT ∧ r.mtype &&& MEM_IMAGE ≠ 0 ∧
    r.protect &&& writableProtectMask = 0)

/-- The protection change applied by VirtualProtect in UnprotectRange:
    execute-read-write when the region was executable, else read-write. -/
def unprotectedOf (r : MemRegion) : MemRegion :=
  { r with protect :=
      if r.protect &&& executableProtectMask ≠ 0 then PAGE_EXECUTE_READWRITE
      else PAGE_READWRITE }

/-- UnprotectRange: walk while QueriedSize < Size.  A failing VirtualQuery
    returns at once (no record, no signal).  A region meeting the condition
    is changed when its VirtualProtect succeeds and a ProtectionRecord
    (base, size, old protection) is pushed at the front of the record list
    (forward_list emplace_front), so the head of the final list is the
    newest record.  Every other region is left untouched. -/
def UnprotectRange : List MemRegion → Nat → Nat → List MemRegion × List (Nat × Nat × Nat)
  | [], _, _ => ([], [])
  | r :: rest, queriedSize, size =>
    if queriedSize < size then
      if r.queryOk = false then (r :: rest, [])
      else if needsUnprotect r ∧ r.protectOk then
        (unprotectedOf r :: (UnprotectRange rest (queriedSize + r.size) size).1,
         (UnprotectRange rest (queriedSize + r.size) size).2 ++
           [(r.base, r.size, r.protect)])
      else
        (r :: (UnprotectRange rest (queriedSize + r.size) size).1,
         (UnprotectRange rest (queriedSize + r.size) size).2)
    else (r :: rest, [])

/-- The destructor of one ReprotectRegion record: VirtualProtect back to the
    saved protection; on failure the region is left as it is. -/
def ReprotectRegion (mem : List MemRegion) (pr : Nat × Nat × Nat) : List MemRegion :=
  mem.map fun r =>
    if r.base = pr.1 ∧ r.protectOk then { r with protect := pr.2.2 } else r

/-- Destruction of the forward_list of records: front to back, which is the
    reverse (LIFO) order of acquisition. -/
def reprotectAll (recs : List (Nat × Nat × Nat)) (mem : List MemRegion) : List MemRegion :=
  recs.foldl ReprotectRegion mem

/-! ## Trampoline allocator (Trampoline.h) -/

def INT32_MIN : Int := -2147483648

def INT32_MAX : Int := 2147483647

/-- Twos-complement reinterpretation of an integer as a signed 64 bit
    value, as the conversion of a wrapped uintptr_t difference to
    ptrdiff_t does. -/
def int64Wrap (x : Int) : Int := (x + 2 ^ 63) % 2 ^ 64 - 2 ^ 63

/-- IsAddressFeasible: the signed 64 bit difference fits a signed 32 bit
    displacement. -/
def IsAddressFeasible (trampolineOffset addr : Nat) : Bool :=
  let diff := int64Wrap ((trampolineOffset : Int) - (addr : Int))
  decide (INT32_MIN ≤ diff) && decide (diff ≤ INT32_MAX)

/-- A trampoline block: the current free pointer m_pageMemory and the
    remaining space m_spaceLeft.  The process-wide registry ms_first is a
    list with the newest block first. -/
structure Trampoline where
  pageMemory : Nat
  spaceLeft : Nat
deriving DecidableEq

def SINGLE_TRAMPOLINE_SIZE : Nat := 14

/-- FeasibleForAddresss: the window test on the current free pointer, then
    the space test including the alignment slack computed as in std align:
    offset = pageMemory andmask (align - 1), adjusted to align - offset when
    non-zero. -/
def FeasibleForAddresss (t : Trampoline) (addr size align : Nat) : Bool :=
  if IsAddressFeasible t.pageMemory addr then
    let offset0 := t.pageMemory &&& (align - 1)
    let offset := if offset0 ≠ 0 then align - offset0 else offset0
    decide (offset ≤ t.spaceLeft) && decide (size ≤ t.spaceLeft - offset)
  else false

/-- The slack needed to align p forward to a multiple of align. -/
def alignPad (p align : Nat) : Nat := (align - p % align) % align

/-- GetNewSpace: std align bumps m_pageMemory to the aligned address and
    charges the slack, then the function advances by size; when the slack
    plus the request exceeds m_spaceLeft the assert fires and nullptr comes
    back, modelled as none. -/
def GetNewSpace (t : Trampoline) (size alignment : Nat) : Option (Nat × Trampoline) :=
  let pad := alignPad t.pageMemory alignment
  if pad + size ≤ t.spaceLeft then
    some (t.pageMemory + pad, ⟨t.pageMemory + pad + size, t.spaceLeft - pad - size⟩)
  else none

/-- Jump: carve SINGLE_TRAMPOLINE_SIZE bytes, alignment one, and return the
    address of the stub. -/
def Jump (t : Trampoline) : Option (Nat × Trampoline) :=
  GetNewSpace t SINGLE_TRAMPOLINE_SIZE 1

/-- Pointer: carve size bytes at the requested alignment and return the
    slot address. -/
def Pointer (t : Trampoline) (size align : Nat) : Option (Nat × Trampoline) :=
  GetNewSpace t size align

/-- A region of the process address map used by FindAndAllocateMem, with
    its base, size and whether it is MEM_FREE.  The list is assumed sorted
    by base and gap free, and queries are byte granular. -/
structure AllocRegion where
  base : Nat
  size : Nat
  free : Bool
deriving DecidableEq

/-- Alignment of x up to a multiple of the power-of-two g, by the mask
    (x + g - 1) andmask (complement of (g - 1)) over 64 bits. -/
def maskAlign (x g : Nat) : Nat := (x + g - 1) &&& (2 ^ 64 - g)

/-- RoundDown of Trampoline.h: addr is unsigned, so only the non-negative
    branch is live. -/
def RoundDown (addr granularity : Nat) : Nat := addr / granularity * granularity

/-- VirtualAlloc with MEM_COMMIT and MEM_RESERVE succeeds when the whole
    requested range lies inside a free region of the map. -/
def virtualAllocOk (mm : List AllocRegion) (base size : Nat) : Bool :=
  mm.any fun r => r.free && decide (r.base ≤ base) && decide (base + size ≤ r.base + r.size)

/-- The query loop of FindAndAllocateMem: VirtualQuery at curAddr reports
    the containing region with RegionSize measured from curAddr; a free
    region big enough is tried at its granularity-aligned start when that
    is feasible, else at its rounded-down end; a failed VirtualAlloc moves
    on; walking past the mapped regions makes VirtualQuery fail, breaking
    out with no allocation. -/
def findAllocGo (mm0 : List AllocRegion) (gran addr size : Nat) :
    List AllocRegion → Nat → Option Nat
  | [], _ => none
  | r :: rest, cur =>
    if cur < r.base + r.size then
      if r.base ≤ cur then
        let regionSize := r.base + r.size - cur
        let attempt : Option Nat :=
          if r.free ∧ size ≤ regionSize then
            let alignedAddr := maskAlign cur gran
            let alignedAddrEnd := RoundDown (cur + regionSize - size) gran
            if IsAddressFeasible alignedAddr addr then
              if virtualAllocOk mm0 alignedAddr size then some alignedAddr else none
            else if IsAddressFeasible alignedAddrEnd addr then
              if virtualAllocOk mm0 alignedAddrEnd size then some alignedAddrEnd else none
            else none
          else none
        match attempt with
        | some a => some a
        | none => findAllocGo mm0 gran addr size rest (r.base + r.size)
      else findAllocGo mm0 gran addr size rest cur
    else findAllocGo mm0 gran addr size rest cur

/-- FindAndAllocateMem: start 2 GiB minus one below addr (clamped to zero),
    align the requested size up to the allocation granularity (the size is
    passed by reference, so the aligned size is also returned), and scan
    forward. -/
def FindAndAllocateMem (mm : List AllocRegion) (gran addr sizeIn : Nat) :
    Nat × Option Nat :=
  let maxRelJump : Nat := 2 * 1024 * 1024 * 1024 - 1
  let curAddr := if addr > maxRelJump then addr - maxRelJump else 0
  let size := maskAlign sizeIn gran
  (size, findAllocGo mm gran addr size mm curAddr)

/-- sizeof(Trampoline) on x64: three 8 byte fields. -/
def sizeofTrampoline : Nat := 24

/-- MakeTrampolineInternal: first block of the registry that is feasible,
    else allocate a fresh block near addr and put it at the front of the
    registry; its usable space starts past the Trampoline header.  A failed
    allocation is fatal (placement new on nullptr), modelled as none.
    The result carries the index of the chosen block. -/
def MakeTrampolineInternal (mm : List AllocRegion) (gran : Nat)
    (blocks : List Trampoline) (addr size align : Nat) :
    Option (Nat × List Trampoline) :=
  match blocks.findIdx? (fun t => FeasibleForAddresss t addr size align) with
  | some i => some (i, blocks)
  | none =>
    let sizeToAlloc := size + ((sizeofTrampoline + align - 1) &&& (2 ^ 64 - align))
    match FindAndAllocateMem mm gran addr sizeToAlloc with
    | (szAligned, some space) =>
      some (0, ⟨space + sizeofTrampoline, szAligned - sizeofTrampoline⟩ :: blocks)
    | (_, none) => none

/-- MakeTrampoline with one argument: a single stub slot of
    SINGLE_TRAMPOLINE_SIZE bytes, alignment one. -/
def MakeTrampoline (mm : List AllocRegion) (gran : Nat) (blocks : List Trampoline)
    (addr : Nat) : Option (Nat × List Trampoline) :=
  MakeTrampolineInternal mm gran blocks addr SINGLE_TRAMPOLINE_SIZE 1

/-! ## Concrete fixtures used by witnesses and counterexamples -/

def c1mem : List MemRegion :=
  [⟨0, 4096, 0x1000, 0x1000000, 0x20, true, true⟩,
   ⟨4096, 4096, 0x1000, 0x1000000, 0x04, true, true⟩,
   ⟨8192, 4096, 0x1000, 0x20000, 0x02, true, true⟩,
   ⟨12288, 4096, 0x1000, 0x1000000, 0x02, true, true⟩]

def c2block : Trampoline := ⟨2147483642, 100⟩

def c3mem : Mem := fun a => if a = 0 ∨ a = 10 then 0x48 else 0

def c3p : PatternState := ⟨[0x48], [0xFF], 3, [], [(0, 1), (10, 11)], false⟩

def c5mem : Mem := fun a => if a = 0 then 0x48 else 0

def c5p : PatternState := ⟨[0x48], [0xFF], 0, [], [(0, 3)], false⟩

def c6pat : List Char := ['4', '8']

def c6segs : List (Int × Int) := [(0, 2)]

def c6mem : Mem := fun a => if a = 0 then 0x48 else 0

def c6hints : List (Nat × Int) := [(fnv1 c6pat, 50)]

def c7mem : Mem := fun a =>
  if a = 0 ∨ a = 2 then 0x55 else if a = 1 ∨ a = 3 then 0x83 else 0

def c7segs : List (Int × Int) := [(0, 4)]

def c8mem : Mem := fun _ => 0

def c8p : PatternState := ⟨[0x48], [0xFF], 0, [], [(0, 1)], false⟩

def c9bad : MemRegion := ⟨0, 4096, 0x1000, 0x1000000, 0x20, false, true⟩

def c9good : MemRegion := ⟨4096, 4096, 0x1000, 0x1000000, 0x20, true, true⟩

/-! # Helper lemmas: pattern compiler -/

lemma tpStep_skip (st : TPState) (c : Char) (h1 : isHexChar c = false)
    (h2 : ¬ c = ' ') (h3 : ¬ c = '?') : tpStep st c = st := by
  simp [tpStep, h1, h2, h3]

lemma tpStep_congr (st : TPState) {a b : Char} (hab : hexEquiv a b) :
    tpStep st a = tpStep st b := by
  rcases hab with rfl | ⟨ha, hb, htol⟩
  · rfl
  · have ha1 : ¬ a = ' ' := by rintro rfl; exact absurd ha (by decide)
    have ha2 : ¬ a = '?' := by rintro rfl; exact absurd ha (by decide)
    have hb1 : ¬ b = ' ' := by rintro rfl; exact absurd hb (by decide)
    have hb2 : ¬ b = '?' := by rintro rfl; exact absurd hb (by decide)
    simp [tpStep, ha1, ha2, hb1, hb2, ha, hb, htol]

lemma tpFold_congr {s t : List Char} (h : List.Forall₂ hexEquiv s t) :
    ∀ st : TPState, s.foldl tpStep st = t.foldl tpStep st := by
  induction h with
  | nil => intro st; rfl
  | cons hab _ ih =>
    intro st
    simp only [List.foldl_cons]
    rw [tpStep_congr st hab]
    exact ih _

lemma tpFold_data_length (s : List Char) : ∀ st : TPState,
    ((s.foldl tpStep st).data).length =
      st.data.length + s.countP (fun c => decide (c = '?')) +
        (s.countP isHexChar + (if st.tempFlag then 1 else 0)) / 2 := by
  induction s with
  | nil => intro st; cases hf : st.tempFlag <;> simp [hf]
  | cons c s ih =>
    intro st
    simp only [List.foldl_cons, List.countP_cons]
    by_cases hc1 : c = ' '
    · subst hc1
      rw [show tpStep st ' ' = st from rfl]
      rw [ih st]
      simp [isHexChar]
    · by_cases hc2 : c = '?'
      · subst hc2
        have hstep : tpStep st '?' =
            { st with data := st.data ++ [0], mask := st.mask ++ [0] } := rfl
        rw [hstep, ih]
        simp [isHexChar]
        omega
      · by_cases hc3 : isHexChar c
        · rcases hflag : st.tempFlag with _ | _
          · have hstep : tpStep st c =
                { st with tempDigit := tol c <<< 4, tempFlag := true } := by
              simp [tpStep, hc1, hc2, hc3, hflag]
            rw [hstep, ih]
            simp [hc2, hc3, hflag] <;> omega
          · have hstep : tpStep st c =
                { st with tempDigit := st.tempDigit ||| tol c, tempFlag := false,
                          data := st.data ++ [st.tempDigit ||| tol c],
                          mask := st.mask ++ [0xFF] } := by
              simp [tpStep, hc1, hc2, hc3, hflag]
            rw [hstep, ih]
            simp [hc2, hc3, hflag] <;> omega
        · rw [tpStep_skip st c (by simpa using hc3) hc1 hc2, ih]
          simp [hc2, hc3]

lemma tpFold_filter_space (s : List Char) : ∀ st : TPState,
    (s.filter fun c => decide (¬ c = ' ')).foldl tpStep st = s.foldl tpStep st := by
  induction s with
  | nil => intro st; rfl
  | cons c s ih =>
    intro st
    by_cases hc : c = ' '
    · subst hc
      have h1 : (' ' :: s).filter (fun c => decide (¬ c = ' ')) =
          s.filter (fun c => decide (¬ c = ' ')) := by simp
      rw [h1, ih st, List.foldl_cons]
      rfl
    · have h1 : (c :: s).filter (fun c => decide (¬ c = ' ')) =
          c :: s.filter (fun c => decide (¬ c = ' ')) := by simp [hc]
      rw [h1]
      simp only [List.foldl_cons]
      exact ih (tpStep st c)

/-! # Claim C4 -/

/-- C4 counterexample: compiling the signature 48 followed by one question
    mark differs from compiling 48 followed by two question marks, because
    every question mark character emits its own wildcard byte. -/
theorem C4_counterexample :
    transformPattern ['4', '8', ' ', '?'] ≠ transformPattern ['4', '8', ' ', '?', '?'] := by
  decide

/-- C4 amended: each question mark character denotes exactly one wildcard
    byte (so a double question mark token denotes two); hex digit pairs are
    case-insensitive; characters other than hex digits, spaces and question
    marks are silently skipped. -/
theorem C4_wildcard_semantics :
    (∀ s : List Char,
      (transformPattern (s ++ ['?'])).data = (transformPattern s).data ++ [0] ∧
      (transformPattern (s ++ ['?'])).mask = (transformPattern s).mask ++ [0]) ∧
    (∀ s t : List Char, List.Forall₂ hexEquiv s t →
      transformPattern s = transformPattern t) ∧
    (∀ (s t : List Char) (c : Char), isHexChar c = false → ¬ c = ' ' → ¬ c = '?' →
      transformPattern (s ++ c :: t) = transformPattern (s ++ t)) := by
  refine ⟨fun s => ?_, fun s t h => tpFold_congr h _, fun s t c h1 h2 h3 => ?_⟩
  · unfold transformPattern
    rw [List.foldl_append]
    constructor <;> rfl
  · unfold transformPattern
    rw [List.foldl_append, List.foldl_append, List.foldl_cons,
      tpStep_skip _ c h1 h2 h3]

/-- C4 witness: the amended statement evaluated at concrete inputs. -/
theorem C4_witness :
    ((transformPattern (['4', '8'] ++ ['?'])).data =
        (transformPattern ['4', '8']).data ++ [0]) ∧
    transformPattern ['4', 'a'] = transformPattern ['4', 'A'] ∧
    transformPattern (['4'] ++ 'g' :: ['8']) = transformPattern (['4'] ++ ['8']) :=
  ⟨(C4_wildcard_semantics.1 ['4', '8']).1,
   C4_wildcard_semantics.2.1 _ _
     (List.Forall₂.cons (Or.inl rfl)
       (List.Forall₂.cons (Or.inr ⟨by decide, by decide, by decide⟩)
         List.Forall₂.nil)),
   C4_wildcard_semantics.2.2 ['4'] ['8'] 'g' (by decide) (by decide) (by decide)⟩

/-! # Claim C10 -/

/-- C10: the compiler pairs hex digits sequentially and ignores spaces as
    delimiters: compiling 4 8 equals compiling 48; removing all spaces never
    changes the result; the number of emitted bytes is the wildcard count
    plus half the hex digit count rounded down, so a final unpaired hex
    digit contributes no byte, and appending one hex digit with no pending
    half byte leaves the data unchanged. -/
theorem C10_hex_pairing :
    transformPattern ['4', ' ', '8'] = transformPattern ['4', '8'] ∧
    (∀ s : List Char,
      transformPattern (s.filter fun c => decide (¬ c = ' ')) = transformPattern s) ∧
    (∀ s : List Char, (transformPattern s).data.length =
      s.countP (fun c => decide (c = '?')) + s.countP isHexChar / 2) ∧
    (∀ (s : List Char) (d : Char), isHexChar d = true →
      (transformPattern s).tempFlag = false →
      (transformPattern (s ++ [d])).data = (transformPattern s).data) := by
  refine ⟨by decide, fun s => tpFold_filter_space s _, fun s => ?_, fun s d hd hf => ?_⟩
  · have h := tpFold_data_length s ⟨0, false, [], []⟩
    simpa using h
  · have hf2 : (List.foldl tpStep ⟨0, false, [], []⟩ s).tempFlag = false := hf
    unfold transformPattern
    rw [List.foldl_append]
    have hd1 : ¬ d = ' ' := by rintro rfl; exact absurd hd (by decide)
    have hd2 : ¬ d = '?' := by rintro rfl; exact absurd hd (by decide)
    simp [tpStep, hd1, hd2, hd, hf2]

/-- C10 witness: the statement evaluated at concrete inputs. -/
theorem C10_witness :
    (transformPattern (['4', ' ', '8'].filter fun c => decide (¬ c = ' ')) =
      transformPattern ['4', ' ', '8']) ∧
    ((transformPattern ['4', '8', '8']).data.length =
      (['4', '8', '8'].countP (fun c => decide (c = '?')) +
        ['4', '8', '8'].countP isHexChar / 2)) ∧
    (transformPattern (['4', '8'] ++ ['8'])).data = (transformPattern ['4', '8']).data :=
  ⟨C10_hex_pairing.2.1 ['4', ' ', '8'],
   C10_hex_pairing.2.2.1 ['4', '8', '8'],
   C10_hex_pairing.2.2.2 ['4', '8'] '8' (by decide) (by decide)⟩

/-! # Helper lemmas: scanner -/

lemma land_255_eq_self {m : Nat} (hm : m < 256) : m &&& 255 = m := by
  have h2 : (255 : Nat) = 2 ^ 8 - 1 := by norm_num
  rw [h2, Nat.and_pow_two_sub_one_eq_mod]
  exact Nat.mod_eq_of_lt hm

lemma scanSeg_stop (mem : Mem) (bytes mask : List Nat) (last : Nat → Int)
    (hash maxCount : Nat) (segEnd i : Int) (st : ScanState) (h : ¬ i ≤ segEnd) :
    scanSeg mem bytes mask last hash maxCount segEnd i st = st := by
  rw [scanSeg, dif_neg h]

lemma scanSeg_step_match (mem : Mem) (bytes mask : List Nat) (last : Nat → Int)
    (hash maxCount : Nat) (segEnd i : Int) (st : ScanState)
    (hle : i ≤ segEnd) (hneg : scanCmp mem bytes mask i mask.length < 0) :
    scanSeg mem bytes mask last hash maxCount segEnd i st =
      if (st.m_matches ++ [i]).length = maxCount then
        ⟨st.m_matches ++ [i], st.hints ++ [(hash, i)]⟩
      else
        scanSeg mem bytes mask last hash maxCount segEnd (i + 1)
          ⟨st.m_matches ++ [i], st.hints ++ [(hash, i)]⟩ := by
  rw [scanSeg, dif_pos hle, if_pos hneg]

lemma scanSeg_step_miss (mem : Mem) (bytes mask : List Nat) (last : Nat → Int)
    (hash maxCount : Nat) (segEnd i : Int) (st : ScanState)
    (hle : i ≤ segEnd) (hnn : ¬ scanCmp mem bytes mask i mask.length < 0) :
    scanSeg mem bytes mask last hash maxCount segEnd i st =
      scanSeg mem bytes mask last hash maxCount segEnd
        (i + max 1 (scanCmp mem bytes mask i mask.length -
          last (mem (i + scanCmp mem bytes mask i mask.length)))) st := by
  rw [scanSeg, dif_pos hle, if_neg hnn]

lemma scanCmp_spec (mem : Mem) (bytes mask : List Nat) (i : Int) (n : Nat) :
    (scanCmp mem bytes mask i n = -1 ∧
      ∀ j, j < n → bytes.getD j 0 = mem (i + (j : Int)) &&& mask.getD j 0) ∨
    (∃ j : Nat, j < n ∧ scanCmp mem bytes mask i n = (j : Int) ∧
      ¬ bytes.getD j 0 = mem (i + (j : Int)) &&& mask.getD j 0) := by
  induction n with
  | zero => exact Or.inl ⟨rfl, fun j hj => absurd hj (Nat.not_lt_zero j)⟩
  | succ n ih =>
    by_cases h : bytes.getD n 0 = mem (i + (n : Int)) &&& mask.getD n 0
    · have hstep : scanCmp mem bytes mask i (n + 1) = scanCmp mem bytes mask i n := by
        simp only [scanCmp]
        rw [if_pos h]
      rcases ih with ⟨h1, h2⟩ | ⟨j, hj, hval, hmis⟩
      · refine Or.inl ⟨hstep.trans h1, fun j hj => ?_⟩
        rcases Nat.lt_succ_iff_lt_or_eq.mp hj with hj2 | rfl
        · exact h2 j hj2
        · exact h
      · exact Or.inr ⟨j, Nat.lt_succ_of_lt hj, hstep.trans hval, hmis⟩
    · refine Or.inr ⟨n, Nat.lt_succ_self n, ?_, h⟩
      simp only [scanCmp]
      rw [if_neg h]

lemma matchAt_iff (mem : Mem) (bytes mask : List Nat) (i : Int) :
    matchAt mem bytes mask i = true ↔
      ∀ j, j < mask.length → bytes.getD j 0 = mem (i + (j : Int)) &&& mask.getD j 0 := by
  simp [matchAt, List.all_eq_true, List.mem_range]

lemma scanCmp_neg_iff (mem : Mem) (bytes mask : List Nat) (i : Int) :
    scanCmp mem bytes mask i mask.length < 0 ↔ matchAt mem bytes mask i = true := by
  rcases scanCmp_spec mem bytes mask i mask.length with ⟨h1, h2⟩ | ⟨j, hj, hval, hmis⟩
  · rw [h1]
    constructor
    · intro _
      exact (matchAt_iff mem bytes mask i).mpr h2
    · intro _
      norm_num
  · rw [hval]
    constructor
    · intro hlt
      exact absurd hlt (by omega)
    · intro hm
      exact absurd ((matchAt_iff mem bytes mask i).mp hm j hj) hmis

lemma buildLast_fold_mono (bytes : List Nat) (l : List Nat) :
    ∀ (f : Nat → Int) (b : Nat),
      f b ≤ (l.foldl (fun (f : Nat → Int) (i : Nat) =>
        if f (bytes.getD i 0) < (i : Int) then
          Function.update f (bytes.getD i 0) (i : Int)
        else f) f) b := by
  induction l with
  | nil => intro f b; exact le_refl _
  | cons a l ih =>
    intro f b
    simp only [List.foldl_cons]
    refine le_trans ?_ (ih _ b)
    by_cases h : f (bytes.getD a 0) < (a : Int)
    · rw [if_pos h, Function.update_apply]
      by_cases hb : b = bytes.getD a 0
      · subst hb
        rw [if_pos rfl]
        omega
      · rw [if_neg hb]
    · rw [if_neg h]

lemma buildLast_fold_ge (bytes : List Nat) (l : List Nat) :
    ∀ (f : Nat → Int) (k : Nat), k ∈ l →
      (k : Int) ≤ (l.foldl (fun (f : Nat → Int) (i : Nat) =>
        if f (bytes.getD i 0) < (i : Int) then
          Function.update f (bytes.getD i 0) (i : Int)
        else f) f) (bytes.getD k 0) := by
  induction l with
  | nil =>
    intro f k hk
    exact absurd hk (List.not_mem_nil k)
  | cons a l ih =>
    intro f k hk
    simp only [List.foldl_cons]
    rcases List.mem_cons.mp hk with rfl | hk2
    · refine le_trans ?_ (buildLast_fold_mono bytes l _ _)
      by_cases h : f (bytes.getD k 0) < (k : Int)
      · rw [if_pos h, Function.update_apply, if_pos rfl]
      · rw [if_neg h]
        omega
    · exact ih _ k hk2

lemma buildLast_ge (bytes mask : List Nat) (k : Nat) (hk : k < mask.length) :
    (k : Int) ≤ buildLast bytes mask (bytes.getD k 0) :=
  buildLast_fold_ge bytes (List.range mask.length) _ k (List.mem_range.mpr hk)

lemma buildLast_ge_default (bytes mask : List Nat) (b : Nat) :
    lastWildDefault mask ≤ buildLast bytes mask b :=
  buildLast_fold_mono bytes (List.range mask.length) _ b

lemma mask_getD_ff (mask : List Nat) (hm : ∀ b ∈ mask, b = 0xFF) (k : Nat)
    (hk : k < mask.length) : mask.getD k 0 = 0xFF := by
  rw [List.getD_eq_getElem mask 0 hk]
  exact hm _ (List.getElem_mem hk)

lemma findLastNotFF_all_ff (mask : List Nat) (hm : ∀ b ∈ mask, b = 0xFF) :
    findLastNotFF mask = none := by
  unfold findLastNotFF
  have hgen : ∀ (l : List Nat) (acc : Option Nat), (∀ i ∈ l, mask.getD i 0 = 0xFF) →
      l.foldl (fun acc i => if mask.getD i 0 ≠ 0xFF then some i else acc) acc = acc := by
    intro l
    induction l with
    | nil => intro acc _; rfl
    | cons a l ih =>
      intro acc hall
      have hval : mask.getD a 0 = 0xFF := hall a (List.mem_cons_self a l)
      simp only [List.foldl_cons]
      rw [if_neg (not_not_intro hval)]
      exact ih _ fun i hi => hall i (List.mem_cons_of_mem a hi)
  refine hgen _ none fun i hi => ?_
  exact mask_getD_ff mask hm i (List.mem_range.mp hi)

lemma lastWildDefault_all_ff (mask : List Nat) (hm : ∀ b ∈ mask, b = 0xFF) :
    lastWildDefault mask = -1 := by
  unfold lastWildDefault
  rw [findLastNotFF_all_ff mask hm]

lemma skip_no_match (mem : Mem) (bytes mask : List Nat)
    (hmask : ∀ b ∈ mask, b = 0xFF) (hmem : ∀ a : Int, mem a < 256)
    (i : Int) (j : Nat) (hj : j < mask.length) :
    ∀ t : Int, 0 < t → t < (j : Int) - buildLast bytes mask (mem (i + (j : Int))) →
      matchAt mem bytes mask (i + t) = false := by
  intro t ht1 ht2
  by_contra hmatch
  have hm : matchAt mem bytes mask (i + t) = true := by
    cases hM : matchAt mem bytes mask (i + t) with
    | false => exact absurd hM hmatch
    | true => rfl
  have hdef : (-1 : Int) ≤ buildLast bytes mask (mem (i + (j : Int))) := by
    have h := buildLast_ge_default bytes mask (mem (i + (j : Int)))
    rwa [lastWildDefault_all_ff mask hmask] at h
  obtain ⟨k, hk⟩ : ∃ k : Nat, (k : Int) = (j : Int) - t :=
    ⟨((j : Int) - t).toNat, by omega⟩
  have hkj : k < mask.length := by omega
  have hmk := (matchAt_iff mem bytes mask (i + t)).mp hm k hkj
  rw [mask_getD_ff mask hmask k hkj] at hmk
  have haddr : i + t + (k : Int) = i + (j : Int) := by omega
  rw [haddr, land_255_eq_self (hmem (i + (j : Int)))] at hmk
  have hge : (k : Int) ≤ buildLast bytes mask (mem (i + (j : Int))) := by
    have h := buildLast_ge bytes mask k hkj
    rwa [hmk] at h
  omega

lemma intRange_empty {lo hi : Int} (h : hi < lo) : intRange lo hi = [] := by
  unfold intRange
  rw [show (hi + 1 - lo).toNat = 0 from by omega]
  rfl

lemma intRange_cons {lo hi : Int} (h : lo ≤ hi) :
    intRange lo hi = lo :: intRange (lo + 1) hi := by
  unfold intRange
  rw [show (hi + 1 - lo).toNat = (hi + 1 - (lo + 1)).toNat + 1 from by omega,
    List.range_succ_eq_map]
  simp only [List.map_cons, List.map_map]
  rw [show lo + ((0 : Nat) : Int) = lo from by norm_num]
  congr 1
  refine List.map_congr_left fun a _ => ?_
  simp only [Function.comp_apply]
  push_cast
  ring

lemma filter_intRange_skip (p : Int → Bool) (hi : Int) :
    ∀ (s : Nat) (i : Int),
      (∀ x : Int, i ≤ x → x < i + (s : Int) → p x = false) →
      (intRange i hi).filter p = (intRange (i + (s : Int)) hi).filter p := by
  intro s
  induction s with
  | zero =>
    intro i _
    rw [show i + ((0 : Nat) : Int) = i from by push_cast; ring]
  | succ s ih =>
    intro i h
    by_cases hle : i ≤ hi
    · rw [intRange_cons hle, List.filter_cons,
        if_neg (by rw [h i le_rfl (by omega)]; simp)]
      rw [show i + ((s + 1 : Nat) : Int) = (i + 1) + (s : Int) from by push_cast; ring]
      exact ih (i + 1) fun x hx1 hx2 => h x (by omega) (by omega)
    · rw [intRange_empty (by omega), intRange_empty (by omega)]

lemma scanSeg_eq_naive (mem : Mem) (bytes mask : List Nat) (hash maxCount : Nat)
    (segEnd : Int) (hmask : ∀ b ∈ mask, b = 0xFF) (hmem : ∀ a : Int, mem a < 256) :
    ∀ (fuel : Nat) (i : Int) (st : ScanState),
      (segEnd + 1 - i).toNat ≤ fuel →
      st.m_matches.length +
        ((intRange i segEnd).filter (matchAt mem bytes mask)).length ≤ maxCount →
      scanSeg mem bytes mask (buildLast bytes mask) hash maxCount segEnd i st =
        ⟨st.m_matches ++ (intRange i segEnd).filter (matchAt mem bytes mask),
         st.hints ++ ((intRange i segEnd).filter (matchAt mem bytes mask)).map
           (fun a => (hash, a))⟩ := by
  intro fuel
  induction fuel with
  | zero =>
    intro i st hf _
    have hlt : segEnd < i := by omega
    rw [scanSeg_stop _ _ _ _ _ _ _ _ _ (by omega), intRange_empty hlt]
    simp
  | succ fuel ih =>
    intro i st hf hc
    by_cases hle : i ≤ segEnd
    · by_cases hneg : scanCmp mem bytes mask i mask.length < 0
      · -- full match at i
        have hmi : matchAt mem bytes mask i = true :=
          (scanCmp_neg_iff mem bytes mask i).mp hneg
        have hfc : (intRange i segEnd).filter (matchAt mem bytes mask) =
            i :: (intRange (i + 1) segEnd).filter (matchAt mem bytes mask) := by
          rw [intRange_cons hle, List.filter_cons, if_pos (by rw [hmi])]
        rw [scanSeg_step_match mem bytes mask _ hash maxCount segEnd i st hle hneg]
        rw [hfc] at hc ⊢
        by_cases hbr : (st.m_matches ++ [i]).length = maxCount
        · rw [if_pos hbr]
          have hR : ((intRange (i + 1) segEnd).filter (matchAt mem bytes mask)).length = 0 := by
            simp only [List.length_append, List.length_cons, List.length_singleton,
              List.length_nil] at hbr hc
            omega
          rw [List.length_eq_zero.mp hR]
          simp
        · rw [if_neg hbr]
          have hrec := ih (i + 1) ⟨st.m_matches ++ [i], st.hints ++ [(hash, i)]⟩
            (by omega)
            (by simp only [List.length_append, List.length_singleton,
                  List.length_cons, List.length_nil] at hc ⊢
                omega)
          rw [hrec]
          simp
      · -- mismatch at i
        have hmi : matchAt mem bytes mask i = false := by
          cases hM : matchAt mem bytes mask i with
          | false => rfl
          | true => exact absurd ((scanCmp_neg_iff mem bytes mask i).mpr hM) hneg
        rcases scanCmp_spec mem bytes mask i mask.length with ⟨h1, _⟩ | ⟨j, hj, hval, _⟩
        · rw [h1] at hneg
          exact absurd (by norm_num) hneg
        · rw [scanSeg_step_miss mem bytes mask _ hash maxCount segEnd i st hle hneg]
          rw [hval]
          set L := buildLast bytes mask (mem (i + (j : Int))) with hL
          set sInt := max 1 ((j : Int) - L) with hsdef
          have hs1 : (1 : Int) ≤ sInt := le_max_left _ _
          have hskip : ∀ x : Int, i ≤ x → x < i + sInt →
              matchAt mem bytes mask x = false := by
            intro x hx1 hx2
            rcases eq_or_lt_of_le hx1 with rfl | hx1g
            · exact hmi
            · have hcase : sInt = 1 ∨ sInt = (j : Int) - L := max_choice _ _
              rcases hcase with hone | hjl
              · omega
              · have := skip_no_match mem bytes mask hmask hmem i j hj (x - i)
                  (by omega) (by rw [← hL]; omega)
                rwa [show i + (x - i) = x from by ring] at this
          obtain ⟨s, hsN⟩ : ∃ s : Nat, (s : Int) = sInt := ⟨sInt.toNat, by omega⟩
          have hfilter := filter_intRange_skip (matchAt mem bytes mask) segEnd s i
            (fun x hx1 hx2 => hskip x hx1 (by omega))
          rw [show i + sInt = i + (s : Int) from by omega]
          rw [hfilter] at hc ⊢
          exact ih (i + (s : Int)) st (by omega) hc
    · rw [scanSeg_stop _ _ _ _ _ _ _ _ _ hle, intRange_empty (by omega)]
      simp

lemma naiveSeg_eq_filter (mem : Mem) (bytes mask : List Nat) (seg : Int × Int) :
    naiveSeg mem bytes mask seg =
      (intRange seg.1 (seg.2 - (mask.length : Int))).filter (matchAt mem bytes mask) := rfl

lemma scanFold_eq_naive (mem : Mem) (bytes mask : List Nat) (hash maxCount : Nat)
    (hmask : ∀ b ∈ mask, b = 0xFF) (hmem : ∀ a : Int, mem a < 256) :
    ∀ (segs : List (Int × Int)) (st : ScanState),
      st.m_matches.length + (naiveScan mem bytes mask segs).length ≤ maxCount →
      segs.foldl (fun st seg =>
          scanSeg mem bytes mask (buildLast bytes mask) hash maxCount
            (seg.2 - (mask.length : Int)) seg.1 st) st =
        ⟨st.m_matches ++ naiveScan mem bytes mask segs,
         st.hints ++ (naiveScan mem bytes mask segs).map (fun a => (hash, a))⟩ := by
  intro segs
  induction segs with
  | nil =>
    intro st _
    simp [naiveScan]
  | cons seg segs ih =>
    intro st hc
    have hsplit : naiveScan mem bytes mask (seg :: segs) =
        naiveSeg mem bytes mask seg ++ naiveScan mem bytes mask segs := by
      simp [naiveScan]
    rw [hsplit, List.length_append] at hc
    simp only [List.foldl_cons]
    have h1 := scanSeg_eq_naive mem bytes mask hash maxCount
      (seg.2 - (mask.length : Int)) hmask hmem
      ((seg.2 - (mask.length : Int)) + 1 - seg.1).toNat seg.1 st le_rfl
      (by rw [← naiveSeg_eq_filter]; omega)
    rw [← naiveSeg_eq_filter] at h1
    rw [h1]
    have h2 := ih ⟨st.m_matches ++ naiveSeg mem bytes mask seg,
        st.hints ++ (naiveSeg mem bytes mask seg).map (fun a => (hash, a))⟩
      (by simp only [List.length_append]; omega)
    rw [h2, hsplit]
    simp

lemma EnsureMatches_eq_naive (mem : Mem) (bytes mask : List Nat) (hash : Nat)
    (segs : List (Int × Int)) (hints : List (Nat × Int)) (maxCount : Nat)
    (hmask : ∀ b ∈ mask, b = 0xFF) (hmem : ∀ a : Int, mem a < 256)
    (hcount : (naiveScan mem bytes mask segs).length ≤ maxCount) :
    EnsureMatches mem ⟨bytes, mask, hash, [], segs, false⟩ hints maxCount =
      (⟨bytes, mask, hash, naiveScan mem bytes mask segs, segs, true⟩,
       hints ++ (naiveScan mem bytes mask segs).map (fun a => (hash, a))) := by
  unfold EnsureMatches
  rw [if_neg (by simp)]
  have h := scanFold_eq_naive mem bytes mask hash maxCount hmask hmem segs
    ⟨[], hints⟩ (by simpa using hcount)
  simp only [] at h ⊢
  rw [h]
  simp

/-! # Claim C7 -/

/-- C7: for every pattern with no wildcard bytes (every mask byte 0xFF), the
    wildcard-adapted Boyer-Moore-Horspool scan of EnsureMatches yields
    exactly the ordered match list of a naive byte-for-byte search over the
    same segments, whenever the match cap is not exceeded. -/
theorem C7_bmh_equals_naive (mem : Mem) (bytes mask : List Nat) (hash : Nat)
    (segs : List (Int × Int)) (hints : List (Nat × Int)) (maxCount : Nat)
    (hmask : ∀ b ∈ mask, b = 0xFF)
    (hmem : ∀ a : Int, mem a < 256)
    (hcount : (naiveScan mem bytes mask segs).length ≤ maxCount) :
    (EnsureMatches mem ⟨bytes, mask, hash, [], segs, false⟩ hints maxCount).1.m_matches =
      naiveScan mem bytes mask segs := by
  rw [EnsureMatches_eq_naive mem bytes mask hash segs hints maxCount hmask hmem hcount]

/-- C7 witness: a two byte exact pattern over one segment, matching at the
    addresses zero and two. -/
theorem C7_witness :
    (EnsureMatches c7mem ⟨[0x55, 0x83], [0xFF, 0xFF], 7, [], c7segs, false⟩ []
        100).1.m_matches = [0, 2] := by
  have hmem : ∀ a : Int, c7mem a < 256 := by
    intro a
    unfold c7mem
    split
    · norm_num
    · split <;> norm_num
  have h := C7_bmh_equals_naive c7mem [0x55, 0x83] [0xFF, 0xFF] 7 c7segs [] 100
    (by decide) hmem (by decide)
  rw [h]
  decide

/-! # Claim C3 -/

/-- C3, evaluated on the failing input: pattern 48, one occurrence in each
    of two segments, maxCount one.  The matchSuccess break leaves only the
    first segment, the second segment is still scanned, and its match is
    appended, so two matches are recorded although maxCount is one. -/
theorem C3_max_matches_exceeded :
    (EnsureMatches c3mem c3p [] 1).1.m_matches = [0, 10] := by
  have hA : scanCmp c3mem [72] [255] 0 1 = -1 := by decide
  have hB : scanCmp c3mem [72] [255] 10 1 = -1 := by decide
  have e1 : scanSeg c3mem [72] [255] (buildLast [72] [255]) 3 1 0 0 ⟨[], []⟩ =
      ⟨[0], [(3, 0)]⟩ := by
    rw [scanSeg]
    norm_num [hA]
  have e2 : scanSeg c3mem [72] [255] (buildLast [72] [255]) 3 1 10 10 ⟨[0], [(3, 0)]⟩ =
      ⟨[0, 10], [(3, 0), (3, 10)]⟩ := by
    rw [scanSeg]
    norm_num [hB]
    rw [scanSeg]
    norm_num
  unfold EnsureMatches c3p
  norm_num [e1, e2]

/-! # Claim C5 -/

/-- C5: count runs EnsureMatches with the expected count, then compares the
    number of found matches with the expectation.  On equality both
    policies succeed and the pattern is returned unchanged; on a mismatch
    the assert policy is a fatal assertion failure while the exception
    policy throws a catchable txn_exception instead. -/
theorem C5_count_policies (mem : Mem) (p : PatternState) (hints : List (Nat × Int))
    (n : Nat) :
    ((EnsureMatches mem p hints n).1.m_matches.length = n →
      patternCount mem assertErrPolicyCount p hints n =
        (CountOutcome.ok, EnsureMatches mem p hints n) ∧
      patternCount mem exceptionErrPolicyCount p hints n =
        (CountOutcome.ok, EnsureMatches mem p hints n)) ∧
    (¬ (EnsureMatches mem p hints n).1.m_matches.length = n →
      (patternCount mem assertErrPolicyCount p hints n).1 =
        CountOutcome.assertionFailure ∧
      (patternCount mem exceptionErrPolicyCount p hints n).1 =
        CountOutcome.thrownException) := by
  constructor
  · intro h
    constructor <;>
      simp [patternCount, assertErrPolicyCount, exceptionErrPolicyCount, h]
  · intro h
    constructor <;>
      simp [patternCount, assertErrPolicyCount, exceptionErrPolicyCount, h]

/-- C5 witness: a pattern matching exactly once; count one succeeds, count
    two is an assertion failure under the assert policy and a thrown
    exception under the exception policy. -/
theorem C5_witness :
    (patternCount c5mem assertErrPolicyCount c5p [] 1).1 = CountOutcome.ok ∧
    (patternCount c5mem assertErrPolicyCount c5p [] 2).1 =
      CountOutcome.assertionFailure ∧
    (patternCount c5mem exceptionErrPolicyCount c5p [] 2).1 =
      CountOutcome.thrownException := by
  have hmem : ∀ a : Int, c5mem a < 256 := by
    intro a
    unfold c5mem
    split <;> norm_num
  have h1 : (EnsureMatches c5mem c5p [] 1).1.m_matches.length = 1 := by
    have h := EnsureMatches_eq_naive c5mem [0x48] [0xFF] 0 [(0, 3)] [] 1
      (by decide) hmem (by decide)
    rw [show c5p = ⟨[0x48], [0xFF], 0, [], [(0, 3)], false⟩ from rfl, h]
    decide
  have h2 : (EnsureMatches c5mem c5p [] 2).1.m_matches.length = 1 := by
    have h := EnsureMatches_eq_naive c5mem [0x48] [0xFF] 0 [(0, 3)] [] 2
      (by decide) hmem (by decide)
    rw [show c5p = ⟨[0x48], [0xFF], 0, [], [(0, 3)], false⟩ from rfl, h]
    decide
  refine ⟨?_, ?_, ?_⟩
  · rw [((C5_count_policies c5mem c5p [] 1).1 h1).1]
  · exact ((C5_count_policies c5mem c5p [] 2).2 (by rw [h2]; norm_num)).1
  · exact ((C5_count_policies c5mem c5p [] 2).2 (by rw [h2]; norm_num)).2

/-! # Claim C8 -/

/-- C8: requesting a match at an index at or past the number of matches
    found yields no value (an OutOfRange failure in the modelled checked
    semantics), never an arbitrary one. -/
theorem C8_get_out_of_range (mem : Mem) (p : PatternState) (hints : List (Nat × Int))
    (index : Nat)
    (h : (EnsureMatches mem p hints UINT32_MAX).1.m_matches.length ≤ index) :
    (patternGet mem p hints index).1 = none := by
  unfold patternGet getInternal
  exact List.get?_eq_none.mpr h

/-- C8 witness: a pattern with no matches; requesting index zero yields
    none. -/
theorem C8_witness : (patternGet c8mem c8p [] 0).1 = none := by
  have hmem : ∀ a : Int, c8mem a < 256 := by
    intro a
    norm_num [c8mem]
  have h : (EnsureMatches c8mem c8p [] UINT32_MAX).1.m_matches.length ≤ 0 := by
    have he := EnsureMatches_eq_naive c8mem [0x48] [0xFF] 0 [(0, 1)] [] UINT32_MAX
      (by decide) hmem (by decide)
    rw [show c8p = ⟨[0x48], [0xFF], 0, [], [(0, 1)], false⟩ from rfl, he]
    decide
  exact C8_get_out_of_range c8mem c8p [] 0 h

/-! # Helper lemmas: hint threading -/

lemma scanSeg_hint_shift (mem : Mem) (bytes mask : List Nat) (last : Nat → Int)
    (hash maxCount : Nat) (segEnd : Int) :
    ∀ (fuel : Nat) (i : Int) (st : ScanState),
      (segEnd + 1 - i).toNat ≤ fuel →
      scanSeg mem bytes mask last hash maxCount segEnd i st =
        ⟨(scanSeg mem bytes mask last hash maxCount segEnd i
            ⟨st.m_matches, []⟩).m_matches,
         st.hints ++ (scanSeg mem bytes mask last hash maxCount segEnd i
            ⟨st.m_matches, []⟩).hints⟩ := by
  intro fuel
  induction fuel with
  | zero =>
    intro i st hf
    rw [scanSeg_stop _ _ _ _ _ _ _ _ _ (by omega),
      scanSeg_stop _ _ _ _ _ _ _ _ _ (by omega)]
    simp
  | succ fuel ih =>
    intro i st hf
    by_cases hle : i ≤ segEnd
    · by_cases hneg : scanCmp mem bytes mask i mask.length < 0
      · rw [scanSeg_step_match _ _ _ _ _ _ _ _ _ hle hneg,
          scanSeg_step_match _ _ _ _ _ _ _ _ _ hle hneg]
        dsimp only
        by_cases hbr : (st.m_matches ++ [i]).length = maxCount
        · rw [if_pos hbr, if_pos hbr]
          simp
        · rw [if_neg hbr, if_neg hbr]
          rw [ih (i + 1) ⟨st.m_matches ++ [i], st.hints ++ [(hash, i)]⟩ (by omega),
            ih (i + 1) ⟨st.m_matches ++ [i], [] ++ [(hash, i)]⟩ (by omega)]
          simp
      · rw [scanSeg_step_miss _ _ _ _ _ _ _ _ _ hle hneg,
          scanSeg_step_miss _ _ _ _ _ _ _ _ _ hle hneg]
        have hs1 : (1 : Int) ≤ max 1 (scanCmp mem bytes mask i mask.length -
            last (mem (i + scanCmp mem bytes mask i mask.length))) := le_max_left _ _
        exact ih _ st (by omega)
    · rw [scanSeg_stop _ _ _ _ _ _ _ _ _ hle, scanSeg_stop _ _ _ _ _ _ _ _ _ hle]
      simp

lemma scanFold_hint_shift (mem : Mem) (bytes mask : List Nat) (last : Nat → Int)
    (hash maxCount : Nat) :
    ∀ (segs : List (Int × Int)) (st : ScanState),
      segs.foldl (fun st seg => scanSeg mem bytes mask last hash maxCount
          (seg.2 - (mask.length : Int)) seg.1 st) st =
        ⟨(segs.foldl (fun st seg => scanSeg mem bytes mask last hash maxCount
            (seg.2 - (mask.length : Int)) seg.1 st) ⟨st.m_matches, []⟩).m_matches,
         st.hints ++ (segs.foldl (fun st seg => scanSeg mem bytes mask last hash maxCount
            (seg.2 - (mask.length : Int)) seg.1 st) ⟨st.m_matches, []⟩).hints⟩ := by
  intro segs
  induction segs with
  | nil =>
    intro st
    simp
  | cons seg segs ih =>
    intro st
    simp only [List.foldl_cons]
    rw [scanSeg_hint_shift mem bytes mask last hash maxCount
      (seg.2 - (mask.length : Int)) _ seg.1 st le_rfl]
    rw [ih ⟨(scanSeg mem bytes mask last hash maxCount
        (seg.2 - (mask.length : Int)) seg.1 ⟨st.m_matches, []⟩).m_matches,
      st.hints ++ (scanSeg mem bytes mask last hash maxCount
        (seg.2 - (mask.length : Int)) seg.1 ⟨st.m_matches, []⟩).hints⟩]
    rw [ih (scanSeg mem bytes mask last hash maxCount
      (seg.2 - (mask.length : Int)) seg.1 ⟨st.m_matches, []⟩)]
    simp

lemma EnsureMatches_hint_shift (mem : Mem) (p : PatternState)
    (hints : List (Nat × Int)) (maxCount : Nat) :
    EnsureMatches mem p hints maxCount =
      ((EnsureMatches mem p [] maxCount).1,
       hints ++ (EnsureMatches mem p [] maxCount).2) := by
  unfold EnsureMatches
  by_cases hm : p.matched
  · rw [if_pos hm, if_pos hm]
    simp
  · rw [if_neg hm, if_neg hm]
    dsimp only
    rw [scanFold_hint_shift mem p.bytes p.mask (buildLast p.bytes p.mask) p.hash
      maxCount p.scanSegments ⟨p.m_matches, hints⟩]

lemma foldl_considerHint (l : List (Nat × Int)) : ∀ p : PatternState,
    l.foldl (fun p h => ConsiderHint p h.2) p =
      { p with m_matches := p.m_matches ++ l.map (fun h => h.2) } := by
  induction l with
  | nil => intro p; simp
  | cons a l ih =>
    intro p
    simp only [List.foldl_cons, List.map_cons]
    rw [ih]
    simp [ConsiderHint]

/-! # Claim C6 -/

/-- C6 counterexample: with a stale cached hint whose bytes no longer match
    the pattern, initialization resolves the scan from the unverified hint:
    the resolved match is the stale address although its content fails the
    byte comparison, while the empty-cache full scan finds address zero. -/
theorem C6_counterexample :
    (patternInit c6pat c6segs c6hints).1.matched = true ∧
    (patternInit c6pat c6segs c6hints).1.m_matches = [50] ∧
    matchAt c6mem [0x48] [0xFF] 50 = false ∧
    (EnsureMatches c6mem (patternInit c6pat c6segs []).1 []
        UINT32_MAX).1.m_matches = [0] := by
  refine ⟨by decide, by decide, by decide, ?_⟩
  have hmem : ∀ a : Int, c6mem a < 256 := by
    intro a
    unfold c6mem
    split <;> norm_num
  have hinit : (patternInit c6pat c6segs []).1 =
      ⟨[0x48], [0xFF], fnv1 c6pat, [], c6segs, false⟩ := by decide
  rw [hinit]
  have he := EnsureMatches_eq_naive c6mem [0x48] [0xFF] (fnv1 c6pat) c6segs []
    UINT32_MAX (by decide) hmem (by decide)
  rw [he]
  decide

/-- C6 amended: in the only hint configuration that builds, cached hints
    are used without re-verification.  If the cache has no entry for the
    fingerprint, initialization equals the empty-cache one, the full scan
    result equals the empty-cache scan, and the found addresses are
    appended to the cache.  If the cache has entries, the pattern is
    resolved as matched using exactly the cached addresses and
    EnsureMatches performs no scan. -/
theorem C6_hint_semantics (pattern : List Char) (segs : List (Int × Int))
    (hints : List (Nat × Int)) (mem : Mem) (maxCount : Nat) :
    (hints.filter (fun h => h.1 = fnv1 pattern) = [] →
      (patternInit pattern segs hints).1 = (patternInit pattern segs []).1 ∧
      (EnsureMatches mem (patternInit pattern segs hints).1 hints maxCount).1 =
        (EnsureMatches mem (patternInit pattern segs []).1 [] maxCount).1 ∧
      (EnsureMatches mem (patternInit pattern segs hints).1 hints maxCount).2 =
        hints ++ (EnsureMatches mem (patternInit pattern segs []).1 [] maxCount).2) ∧
    (hints.filter (fun h => h.1 = fnv1 pattern) ≠ [] →
      (patternInit pattern segs hints).1.matched = true ∧
      (patternInit pattern segs hints).1.m_matches =
        (hints.filter (fun h => h.1 = fnv1 pattern)).map (fun h => h.2) ∧
      EnsureMatches mem (patternInit pattern segs hints).1 hints maxCount =
        ((patternInit pattern segs hints).1, hints)) := by
  constructor
  · intro hf
    have h1 : (patternInit pattern segs hints).1 = (patternInit pattern segs []).1 := by
      unfold patternInit
      dsimp only
      rw [hf]
      simp
    refine ⟨h1, ?_, ?_⟩
    · rw [h1, EnsureMatches_hint_shift]
    · rw [h1, EnsureMatches_hint_shift]
  · intro hf
    have hinit : (patternInit pattern segs hints).1 =
        { bytes := (transformPattern pattern).data,
          mask := (transformPattern pattern).mask,
          hash := fnv1 pattern,
          m_matches := (hints.filter (fun h => h.1 = fnv1 pattern)).map (fun h => h.2),
          scanSegments := segs, matched := true } := by
      unfold patternInit
      dsimp only
      rw [if_pos hf, foldl_considerHint]
      rw [if_pos (by simp [List.map_eq_nil, hf])]
      simp
    refine ⟨by rw [hinit], by rw [hinit], ?_⟩
    unfold EnsureMatches
    rw [if_pos (by rw [hinit])]

/-- C6 witness: the amended statement at concrete inputs, one instance per
    branch. -/
theorem C6_witness :
    ((EnsureMatches c6mem (patternInit c6pat c6segs [(99, 50)]).1 [(99, 50)] 5).2 =
      [(99, 50)] ++ (EnsureMatches c6mem (patternInit c6pat c6segs []).1 [] 5).2) ∧
    (patternInit c6pat c6segs c6hints).1.matched = true ∧
    EnsureMatches c6mem (patternInit c6pat c6segs c6hints).1 c6hints 5 =
      ((patternInit c6pat c6segs c6hints).1, c6hints) :=
  ⟨((C6_hint_semantics c6pat c6segs [(99, 50)] c6mem 5).1 (by decide)).2.2,
   ((C6_hint_semantics c6pat c6segs c6hints c6mem 5).2 (by decide)).1,
   ((C6_hint_semantics c6pat c6segs c6hints c6mem 5).2 (by decide)).2.2⟩

/-! # Helper lemmas: protection guard -/

lemma ReprotectRegion_cons (x : MemRegion) (m : List MemRegion) (pr : Nat × Nat × Nat) :
    ReprotectRegion (x :: m) pr =
      (if x.base = pr.1 ∧ x.protectOk then { x with protect := pr.2.2 } else x) ::
        ReprotectRegion m pr := rfl

lemma ReprotectRegion_not_mem (m : List MemRegion) (pr : Nat × Nat × Nat)
    (h : ∀ r ∈ m, r.base ≠ pr.1) : ReprotectRegion m pr = m := by
  unfold ReprotectRegion
  conv_rhs => rw [← List.map_id m]
  refine List.map_congr_left fun r hr => ?_
  rw [if_neg fun hcon => h r hr hcon.1]
  rfl

lemma reprotectAll_append (A B : List (Nat × Nat × Nat)) (m : List MemRegion) :
    reprotectAll (A ++ B) m = reprotectAll B (reprotectAll A m) :=
  List.foldl_append _ _ A B

lemma reprotectAll_cons_head (recs : List (Nat × Nat × Nat)) :
    ∀ (x : MemRegion) (m : List MemRegion), (∀ pr ∈ recs, x.base ≠ pr.1) →
      reprotectAll recs (x :: m) = x :: reprotectAll recs m := by
  induction recs with
  | nil => intro x m _; rfl
  | cons pr recs ih =>
    intro x m h
    simp only [reprotectAll, List.foldl_cons]
    rw [show ReprotectRegion (x :: m) pr =
        x :: ReprotectRegion m pr from by
      rw [ReprotectRegion_cons, if_neg fun hcon => h pr (List.mem_cons_self pr recs) hcon.1]]
    exact ih x (ReprotectRegion m pr) fun q hq => h q (List.mem_cons_of_mem pr hq)

lemma unprotectedOf_restore (r : MemRegion) :
    { unprotectedOf r with protect := r.protect } = r := by
  cases r
  rfl

lemma UnprotectRange_recs (mem : List MemRegion) : ∀ (q s : Nat) (pr : Nat × Nat × Nat),
    pr ∈ (UnprotectRange mem q s).2 →
      ∃ r ∈ mem, pr = (r.base, r.size, r.protect) ∧
        needsUnprotect r = true ∧ r.protectOk = true := by
  induction mem with
  | nil =>
    intro q s pr h
    simp [UnprotectRange] at h
  | cons r rest ih =>
    intro q s pr h
    unfold UnprotectRange at h
    by_cases h1 : q < s
    · rw [if_pos h1] at h
      by_cases h2 : r.queryOk = false
      · rw [if_pos h2] at h
        simp at h
      · rw [if_neg h2] at h
        by_cases h3 : needsUnprotect r = true ∧ r.protectOk = true
        · rw [if_pos h3] at h
          rcases List.mem_append.mp h with h4 | h4
          · obtain ⟨r2, hr2, he⟩ := ih _ _ pr h4
            exact ⟨r2, List.mem_cons_of_mem r hr2, he⟩
          · have he : pr = (r.base, r.size, r.protect) := by simpa using h4
            exact ⟨r, List.mem_cons_self r rest, he, h3.1, h3.2⟩
        · rw [if_neg h3] at h
          obtain ⟨r2, hr2, he⟩ := ih _ _ pr h
          exact ⟨r2, List.mem_cons_of_mem r hr2, he⟩
    · rw [if_neg h1] at h
      simp at h

lemma UnprotectRange_bases (mem : List MemRegion) : ∀ q s,
    (UnprotectRange mem q s).1.map (fun r => r.base) =
      mem.map (fun r => r.base) := by
  induction mem with
  | nil => intro q s; rfl
  | cons r rest ih =>
    intro q s
    unfold UnprotectRange
    by_cases h1 : q < s
    · rw [if_pos h1]
      by_cases h2 : r.queryOk = false
      · rw [if_pos h2]
      · rw [if_neg h2]
        by_cases h3 : needsUnprotect r = true ∧ r.protectOk = true
        · rw [if_pos h3]
          simp only [List.map_cons]
          rw [ih]
          rfl
        · rw [if_neg h3]
          simp only [List.map_cons]
          rw [ih]
    · rw [if_neg h1]

lemma UnprotectRange_untouched (mem : List MemRegion) :
    ∀ (q s : Nat) (idx : Nat) (r : MemRegion),
      mem.get? idx = some r → needsUnprotect r = false →
        (UnprotectRange mem q s).1.get? idx = some r := by
  induction mem with
  | nil =>
    intro q s idx r h _
    simp at h
  | cons x rest ih =>
    intro q s idx r h hn
    unfold UnprotectRange
    by_cases h1 : q < s
    · rw [if_pos h1]
      by_cases h2 : x.queryOk = false
      · rw [if_pos h2]
        exact h
      · rw [if_neg h2]
        by_cases h3 : needsUnprotect x = true ∧ x.protectOk = true
        · rw [if_pos h3]
          cases idx with
          | zero =>
            have hx : x = r := by simpa using h
            subst hx
            rw [h3.1] at hn
            exact absurd hn (by simp)
          | succ n =>
            simp only [List.get?_cons_succ] at h ⊢
            exact ih _ _ n r h hn
        · rw [if_neg h3]
          cases idx with
          | zero => simpa using h
          | succ n =>
            simp only [List.get?_cons_succ] at h ⊢
            exact ih _ _ n r h hn
    · rw [if_neg h1]
      exact h

lemma unprotect_reprotect_roundtrip :
    ∀ (mem : List MemRegion), (mem.map (fun r => r.base)).Nodup →
      ∀ q s, reprotectAll (UnprotectRange mem q s).2 (UnprotectRange mem q s).1 = mem := by
  intro mem
  induction mem with
  | nil =>
    intro _ q s
    rfl
  | cons r rest ih =>
    intro hnd q s
    have hnd2 : (rest.map (fun x => x.base)).Nodup :=
      (List.nodup_cons.mp (by simpa using hnd)).2
    have hnotin : r.base ∉ rest.map (fun x => x.base) :=
      (List.nodup_cons.mp (by simpa using hnd)).1
    have hW2 : ∀ pr ∈ (UnprotectRange rest (q + r.size) s).2, r.base ≠ pr.1 := by
      intro pr hpr
      obtain ⟨r2, hr2, he, _, _⟩ := UnprotectRange_recs rest _ _ pr hpr
      rw [he]
      intro hcon
      refine hnotin ?_
      rw [hcon]
      exact List.mem_map_of_mem (fun x => x.base) hr2
    unfold UnprotectRange
    by_cases h1 : q < s
    · rw [if_pos h1]
      by_cases h2 : r.queryOk = false
      · rw [if_pos h2]
        rfl
      · rw [if_neg h2]
        by_cases h3 : needsUnprotect r = true ∧ r.protectOk = true
        · rw [if_pos h3]
          rw [reprotectAll_append]
          rw [reprotectAll_cons_head _ (unprotectedOf r) _ hW2]
          rw [ih hnd2 (q + r.size) s]
          simp only [reprotectAll, List.foldl_cons, List.foldl_nil]
          rw [ReprotectRegion_cons, if_pos ⟨rfl, h3.2⟩]
          rw [ReprotectRegion_not_mem rest _ fun r2 hr2 hcon => hnotin (by
            have hx : r2.base ∈ rest.map (fun x => x.base) :=
              List.mem_map_of_mem (fun x => x.base) hr2
            rw [hcon] at hx
            exact hx)]
          rw [unprotectedOf_restore]
        · rw [if_neg h3]
          rw [reprotectAll_cons_head _ r _ hW2]
          rw [ih hnd2 (q + r.size) s]
    · rw [if_neg h1]
      rfl

lemma UnprotectRange_query_fail (r : MemRegion) (hq : r.queryOk = false)
    (rest : List MemRegion) :
    ∀ (pre : List MemRegion) (q s : Nat), q + (pre.map (fun x => x.size)).sum < s →
      UnprotectRange (pre ++ r :: rest) q s =
        ((UnprotectRange pre q s).1 ++ r :: rest, (UnprotectRange pre q s).2) := by
  intro pre
  induction pre with
  | nil =>
    intro q s h
    simp only [List.map_nil, List.sum_nil, Nat.add_zero] at h
    simp only [List.nil_append]
    unfold UnprotectRange
    rw [if_pos h, if_pos hq]
    rfl
  | cons x pre ih =>
    intro q s h
    have hsum : q + x.size + (pre.map (fun y => y.size)).sum < s := by
      simp only [List.map_cons, List.sum_cons] at h
      omega
    have hq2 : q < s := by omega
    simp only [List.cons_append]
    unfold UnprotectRange
    rw [if_pos hq2, if_pos hq2]
    by_cases h2 : x.queryOk = false
    · rw [if_pos h2, if_pos h2]
      simp
    · rw [if_neg h2, if_neg h2]
      by_cases h3 : needsUnprotect x = true ∧ x.protectOk = true
      · rw [if_pos h3, if_pos h3]
        rw [ih (q + x.size) s hsum]
        simp
      · rw [if_neg h3, if_neg h3]
        rw [ih (q + x.size) s hsum]
        simp

/-! # Claim C1 -/

/-- C1: once the guard unwinds, every region protection is as before the
    guard: restoring the LIFO record list on the walked memory returns the
    original memory exactly; regions failing the commit, image or
    protection condition are untouched and produce no record; and nested
    guards unwinding in LIFO order also restore the original memory. -/
theorem C1_scoped_unprotect_restores (mem : List MemRegion) (size : Nat)
    (hnd : (mem.map (fun r => r.base)).Nodup)
    (hpos : ∀ r ∈ mem, 0 < r.size) :
    reprotectAll (UnprotectRange mem 0 size).2 (UnprotectRange mem 0 size).1 = mem ∧
    (∀ (idx : Nat) (r : MemRegion), mem.get? idx = some r →
      needsUnprotect r = false →
      (UnprotectRange mem 0 size).1.get? idx = some r ∧
      ∀ pr ∈ (UnprotectRange mem 0 size).2, pr.1 ≠ r.base) ∧
    (∀ size2 : Nat,
      reprotectAll (UnprotectRange mem 0 size).2
        (reprotectAll (UnprotectRange (UnprotectRange mem 0 size).1 0 size2).2
          (UnprotectRange (UnprotectRange mem 0 size).1 0 size2).1) = mem) := by
  refine ⟨unprotect_reprotect_roundtrip mem hnd 0 size, ?_, ?_⟩
  · intro idx r hidx hr
    refine ⟨UnprotectRange_untouched mem 0 size idx r hidx hr, ?_⟩
    intro pr hpr
    obtain ⟨r2, hr2, he, hneed, _⟩ := UnprotectRange_recs mem 0 size pr hpr
    rw [he]
    intro hcon
    have hmem : r ∈ mem := List.get?_mem hidx
    have : r2 = r := List.inj_on_of_nodup_map hnd hr2 hmem (show r2.base = r.base from hcon)
    rw [this] at hneed
    rw [hneed] at hr
    exact absurd hr (by simp)
  · intro size2
    have hnd2 : ((UnprotectRange mem 0 size).1.map (fun r => r.base)).Nodup := by
      rw [UnprotectRange_bases mem 0 size]
      exact hnd
    rw [unprotect_reprotect_roundtrip _ hnd2 0 size2]
    exact unprotect_reprotect_roundtrip mem hnd 0 size

/-- C1 witness: a memory of four regions (executable image, already
    writable image, non-image, read-only image) is restored exactly. -/
theorem C1_witness :
    reprotectAll (UnprotectRange c1mem 0 16384).2 (UnprotectRange c1mem 0 16384).1 =
      c1mem :=
  (C1_scoped_unprotect_restores c1mem 16384 (by decide) (by decide)).1

/-! # Claim C9 -/

/-- C9 counterexample: a failing VirtualQuery on the first region makes
    UnprotectRange return the untouched memory with no record and no error
    indication, although the second region satisfies the unprotect
    condition: the failure is silently swallowed, not propagated. -/
theorem C9_counterexample :
    UnprotectRange [c9bad, c9good] 0 8192 = ([c9bad, c9good], []) ∧
    needsUnprotect c9good = true := by decide

/-- C9 amended: when VirtualQuery fails on a sub-range, UnprotectRange
    stops at that region and returns normally: regions before it keep
    their records and changes, the failing region and everything after are
    untouched, no failure is signalled, and the guard still restores the
    regions it changed. -/
theorem C9_query_failure_silent (pre rest : List MemRegion) (r : MemRegion)
    (q s : Nat) (hq : r.queryOk = false)
    (hlt : q + (pre.map (fun x => x.size)).sum < s)
    (hnd : ((pre ++ r :: rest).map (fun x => x.base)).Nodup) :
    UnprotectRange (pre ++ r :: rest) q s =
      ((UnprotectRange pre q s).1 ++ r :: rest, (UnprotectRange pre q s).2) ∧
    reprotectAll (UnprotectRange (pre ++ r :: rest) q s).2
      (UnprotectRange (pre ++ r :: rest) q s).1 = pre ++ r :: rest :=
  ⟨UnprotectRange_query_fail r hq rest pre q s hlt,
   unprotect_reprotect_roundtrip _ hnd q s⟩

/-- C9 witness: the amended statement on a concrete two region memory whose
    second region fails the query. -/
theorem C9_witness :
    UnprotectRange ([c9good] ++ c9bad :: []) 0 8192 =
      ((UnprotectRange [c9good] 0 8192).1 ++ c9bad :: [],
       (UnprotectRange [c9good] 0 8192).2) ∧
    reprotectAll (UnprotectRange ([c9good] ++ c9bad :: []) 0 8192).2
      (UnprotectRange ([c9good] ++ c9bad :: []) 0 8192).1 = [c9good] ++ c9bad :: [] :=
  C9_query_failure_silent [c9good] [] c9bad 0 8192 (by decide) (by decide) (by decide)

/-! # Claim C2 -/

/-- C2 counterexample: a block whose free pointer sits five bytes below the
    upper edge of the window of target zero is reported feasible for an
    eight byte slot at alignment sixteen, and is returned by
    MakeTrampolineInternal; the slot that Pointer then carves starts at
    2 to the 31, outside the signed 32 bit displacement window of the
    target, because the window was only checked at the free pointer. -/
theorem C2_counterexample :
    FeasibleForAddresss c2block 0 8 16 = true ∧
    MakeTrampolineInternal [] 65536 [c2block] 0 8 16 = some (0, [c2block]) ∧
    (Pointer c2block 8 16).map (fun x => x.1) = some 2147483648 ∧
    IsAddressFeasible 2147483648 0 = false := by decide

/-- C2 amended: a block is reported feasible exactly when its current free
    pointer lies in the signed 32 bit window of the target and the space
    left covers the alignment slack plus the requested size; the window is
    not checked for the full worst-case write, and on a feasible block the
    returned slot address is the free pointer advanced by the alignment
    slack, which can lie beyond the checked byte. -/
theorem C2_feasible_checks_free_pointer (t : Trampoline) (addr size k : Nat) :
    (FeasibleForAddresss t addr size (2 ^ k) = true ↔
      (IsAddressFeasible t.pageMemory addr = true ∧
        alignPad t.pageMemory (2 ^ k) + size ≤ t.spaceLeft)) ∧
    (FeasibleForAddresss t addr size (2 ^ k) = true →
      GetNewSpace t size (2 ^ k) =
        some (t.pageMemory + alignPad t.pageMemory (2 ^ k),
          ⟨t.pageMemory + alignPad t.pageMemory (2 ^ k) + size,
           t.spaceLeft - alignPad t.pageMemory (2 ^ k) - size⟩)) := by
  have hpow : (0 : Nat) < 2 ^ k := pow_pos (by norm_num) k
  have hland : t.pageMemory &&& (2 ^ k - 1) = t.pageMemory % 2 ^ k :=
    Nat.and_pow_two_sub_one_eq_mod t.pageMemory k
  have hoffset : (if t.pageMemory &&& (2 ^ k - 1) ≠ 0 then
        2 ^ k - (t.pageMemory &&& (2 ^ k - 1)) else t.pageMemory &&& (2 ^ k - 1)) =
      alignPad t.pageMemory (2 ^ k) := by
    rw [hland]
    unfold alignPad
    by_cases hz : t.pageMemory % 2 ^ k = 0
    · rw [hz]
      simp
    · have hlt : t.pageMemory % 2 ^ k < 2 ^ k := Nat.mod_lt _ hpow
      rw [if_pos hz]
      exact (Nat.mod_eq_of_lt (by omega)).symm
  have hiff : FeasibleForAddresss t addr size (2 ^ k) = true ↔
      (IsAddressFeasible t.pageMemory addr = true ∧
        alignPad t.pageMemory (2 ^ k) + size ≤ t.spaceLeft) := by
    unfold FeasibleForAddresss
    by_cases hIF : IsAddressFeasible t.pageMemory addr = true
    · rw [if_pos hIF]
      dsimp only
      rw [hoffset]
      simp only [Bool.and_eq_true, decide_eq_true_eq, hIF, true_and]
      omega
    · rw [if_neg hIF]
      simp [hIF]
  refine ⟨hiff, fun hF => ?_⟩
  have hsp := (hiff.mp hF).2
  unfold GetNewSpace
  rw [if_pos hsp]

/-- C2 witness: the amended statement instantiated on the counterexample
    block, with the feasibility premise discharged by computation. -/
theorem C2_witness :
    GetNewSpace c2block 8 (2 ^ 4) =
      some (c2block.pageMemory + alignPad c2block.pageMemory (2 ^ 4),
        ⟨c2block.pageMemory + alignPad c2block.pageMemory (2 ^ 4) + 8,
         c2block.spaceLeft - alignPad c2block.pageMemory (2 ^ 4) - 8⟩) :=
  (C2_feasible_checks_free_pointer c2block 0 8 4).2 (by decide)

end ModUtils
